import Mathlib

/-!
Verification of the Decentralized Ethical Protocol Framework core
(`src/neuro-solidity-auditor/index.ts`, `src/proof-of-humanism/index.ts`)
against its natural-language specification.

The TypeScript code is shallowly embedded: strings are `String` (processed
as `List Char`), JS numbers are `Int`/`ℚ`, JS `Date`/timestamps are omitted
(they never influence the properties checked), exceptions are `Except`/`Option`,
and the asynchronous external-model subprocess is abstracted as an
`Except Unit ModelAuditResult` outcome supplied to the pure conversion code.
-/

/-! ## JS character semantics

The regexes in the source are built without the `u` flag.  `\w` (hence `\b`) is
exactly `[A-Za-z0-9_]`; the `i` flag canonicalizes both sides via
`toUpperCase`, keeping a non-ASCII character unchanged when its upper case
would be ASCII.  The vocabulary tables contain only ASCII letters and
Cyrillic, so canonicalization is modelled for those ranges (identity
elsewhere, which coincides with JS on every character that can possibly
compare equal to a table character). -/

/-- JS `Canonicalize` for case-insensitive regex matching, restricted to the
character ranges that can occur in the pattern tables (ASCII letters,
Cyrillic а–я and ё). -/
def jsUpper (c : Char) : Char :=
  if 97 ≤ c.toNat ∧ c.toNat ≤ 122 then Char.ofNat (c.toNat - 32)
  else if 0x430 ≤ c.toNat ∧ c.toNat ≤ 0x44F then Char.ofNat (c.toNat - 0x20)
  else if c.toNat = 0x451 then Char.ofNat 0x401
  else c

/-- Case-insensitive character equality (JS `i` flag). -/
def ciEq (a b : Char) : Bool := jsUpper a == jsUpper b

/-- JS regex `\w`: `[A-Za-z0-9_]`. -/
def isWordChar (c : Char) : Bool :=
  (97 ≤ c.toNat && c.toNat ≤ 122) || (65 ≤ c.toNat && c.toNat ≤ 90) ||
  (48 ≤ c.toNat && c.toNat ≤ 57) || c == '_'

/-- Word-character test on an optional character; a string boundary counts as
a non-word character (JS `\b` semantics). -/
def isWordOpt : Option Char → Bool
  | none => false
  | some c => isWordChar c

/-- JS regex `\s` (whitespace class). -/
def isJsSpace (c : Char) : Bool :=
  c == ' ' || c == '\t' || c == '\n' || c == '\r' ||
  c.toNat == 11 || c.toNat == 12 || c.toNat == 0xA0 ||
  (0x2000 ≤ c.toNat && c.toNat ≤ 0x200A) || c.toNat == 0x1680 ||
  c.toNat == 0x2028 || c.toNat == 0x2029 || c.toNat == 0x202F ||
  c.toNat == 0x205F || c.toNat == 0x3000 || c.toNat == 0xFEFF

/-- JS regex `.` (any character except line terminators). -/
def isDotChar (c : Char) : Bool :=
  !(c == '\n' || c == '\r' || c.toNat == 0x2028 || c.toNat == 0x2029)

/-- ASCII digit (JS regex `\d`). -/
def isDigitChar (c : Char) : Bool := 48 ≤ c.toNat && c.toNat ≤ 57

/-- Strip a case-insensitive literal pattern from the front of a string,
returning the actually matched characters (original case) and the rest. -/
def stripCI : List Char → List Char → Option (List Char × List Char)
  | [], s => some ([], s)
  | _ :: _, [] => none
  | p :: ps, c :: cs =>
    if ciEq p c then
      match stripCI ps cs with
      | some (m, r) => some (c :: m, r)
      | none => none
    else none

/-- All non-overlapping, left-to-right matches of the JS regex
`\bterm\b` with flags `gi` (the ethical-pattern matcher of
`EthicalMirrorEngine`).  Returns the matched substrings with their original
case, exactly as `String.prototype.match` does.  `fuel` bounds the scan and
is instantiated with the string length. -/
def wwScanAux (term : List Char) : Nat → Option Char → List Char → List (List Char)
  | 0, _, _ => []
  | _ + 1, _, [] => []
  | fuel + 1, prev, c :: cs =>
    match stripCI term (c :: cs) with
    | some (m, r) =>
      if !m.isEmpty
          && (isWordOpt prev != isWordChar c)
          && (isWordOpt m.getLast? != isWordOpt r.head?) then
        m :: wwScanAux term fuel m.getLast? r
      else
        wwScanAux term fuel (some c) cs
    | none => wwScanAux term fuel (some c) cs

/-- Matched substrings of `code.match(regex)` for the whole-word
case-insensitive regex built from `term` (empty list for a `null` result). -/
def wwMatches (term code : String) : List String :=
  (wwScanAux term.data (code.data.length + 1) none code.data).map List.asString

/-- Strip a security pattern from the front of a string.  The pattern string
is compiled by the source as a regex with no escaping, so `.` is the
wildcard; every other character occurring in the security table is literal.
Case-sensitive (no `i` flag on the security regexes). -/
def stripSec : List Char → List Char → Option (List Char × List Char)
  | [], s => some ([], s)
  | _ :: _, [] => none
  | p :: ps, c :: cs =>
    if (if p == '.' then isDotChar c else p == c) then
      match stripSec ps cs with
      | some (m, r) => some (c :: m, r)
      | none => none
    else none

/-- All non-overlapping, left-to-right matches of
`code.match(new RegExp(pat, "g"))` for a security pattern. -/
def secScanAux (pat : List Char) : Nat → List Char → List (List Char)
  | 0, _ => []
  | _ + 1, [] => []
  | fuel + 1, c :: cs =>
    match stripSec pat (c :: cs) with
    | some (m, r) =>
      if !m.isEmpty then m :: secScanAux pat fuel r
      else secScanAux pat fuel cs
    | none => secScanAux pat fuel cs

/-- Matched substrings of a security pattern against `code`. -/
def secMatches (pat code : String) : List String :=
  (secScanAux pat.data (code.data.length + 1) code.data).map List.asString

/-- `String.prototype.replace` with a *string* first argument: replace the
first occurrence of the literal pattern (JS semantics; the replacement texts
produced by the engine contain no `$` substitution patterns). -/
def replaceFirstAux (pat repl : List Char) : List Char → List Char
  | [] => []
  | c :: cs =>
    if pat.isPrefixOf (c :: cs) then repl ++ (c :: cs).drop pat.length
    else c :: replaceFirstAux pat repl cs

/-- First-occurrence replacement, `s.replace(pat, repl)` for a literal
string pattern. -/
def jsReplaceFirst (s pat repl : String) : String :=
  if pat.data.isEmpty then (repl.data ++ s.data).asString
  else (replaceFirstAux pat.data repl.data s.data).asString

/-- Literal (case-sensitive) substring test, JS `String.prototype.includes`. -/
def containsAux (pat : List Char) : List Char → Bool
  | [] => pat.isPrefixOf []
  | c :: cs => pat.isPrefixOf (c :: cs) || containsAux pat cs

/-- Substring containment, `s.includes(pat)` in JS. -/
def containsSubstr (s pat : String) : Bool := containsAux pat.data s.data

/-! ## EthicalMirrorEngine (`src/neuro-solidity-auditor/index.ts`, lines 793–1146) -/

/-- Transformation kind, `CodeTransformation.type` in the source (the
`optimization` variant is declared but never produced). -/
inductive TransformType
  | ethical
  | security
  | optimization
deriving DecidableEq, Repr

/-- Record of one applied substitution, `CodeTransformation` in the source. -/
structure CodeTransformation where
  original : String
  transformed : String
  type : TransformType
  confidence : Nat
  description : String
deriving DecidableEq, Repr

/-- Result of one `ethicalMirror` call, `TransformationResult` in the source
(the impure `timestamp` and `executionTime` fields are omitted). -/
structure TransformationResult where
  originalCode : String
  transformedCode : String
  transformations : List CodeTransformation
deriving DecidableEq, Repr

/-- The `transformationPatterns` table as set up by the constructor
(`initTransformationPatterns`), in `Map` insertion order. -/
def baseEthicalPatterns : List (String × String) :=
  [("drain", "protect"), ("steal", "audit"), ("hack", "secure"),
   ("exploit", "validate"), ("attack", "defend"),
   ("vulnerability", "security"), ("scam", "verify"), ("fraud", "authenticate")]

/-- The `transformationPatterns` table after `initialize()` added its three
extra entries (none overwrite an existing key, so insertion order extends). -/
def initEthicalPatterns : List (String × String) :=
  baseEthicalPatterns ++
  [("криптоосушитель", "анти-драйнеровый щит"), ("взлом", "защита"),
   ("обход", "проверка")]

/-- The `securityPatterns` table of the engine, in `Map` insertion order. -/
def securityPatternsTable : List (String × String) :=
  [("tx.origin", "msg.sender"), ("selfdestruct", "secureDestruct"),
   ("suicide", "secureDestruct"), ("call.value", "safeTransfer"),
   ("assert", "require")]

/-- The annotated replacement text inserted for an ethical match. -/
def ethAnnot (m repl : String) : String :=
  "/* Ethical transformation: " ++ m ++ " -> " ++ repl ++ " */ " ++ repl

/-- Description recorded for an ethical transformation. -/
def ethDescr (m repl : String) : String :=
  "Замена потенциально неэтичного термина \"" ++ m ++ "\" на этичный аналог \"" ++ repl ++ "\""

/-- The annotated replacement text inserted for a security match. -/
def secAnnot (m repl : String) : String :=
  "/* Security transformation: " ++ m ++ " -> " ++ repl ++ " */ " ++ repl

/-- Description recorded for a security transformation. -/
def secDescr (m repl : String) : String :=
  "Замена потенциально небезопасного паттерна \"" ++ m ++ "\" на безопасный аналог \"" ++ repl ++ "\""

/-- One iteration of the ethical loop of `ethicalMirror`: compute all
whole-word case-insensitive matches against the *current* code, then for
each match (in order) replace its first literal occurrence and append a
transformation record (confidence 90). -/
def applyEthicalRule (acc : String × List CodeTransformation)
    (rule : String × String) : String × List CodeTransformation :=
  let ms := wwMatches rule.1 acc.1
  ms.foldl (fun a m =>
    (jsReplaceFirst a.1 m (ethAnnot m rule.2),
     a.2 ++ [⟨m, rule.2, TransformType.ethical, 90, ethDescr m rule.2⟩])) acc

/-- One iteration of the security loop of `ethicalMirror` (plain regex
match, confidence 85). -/
def applySecurityRule (acc : String × List CodeTransformation)
    (rule : String × String) : String × List CodeTransformation :=
  let ms := secMatches rule.1 acc.1
  ms.foldl (fun a m =>
    (jsReplaceFirst a.1 m (secAnnot m rule.2),
     a.2 ++ [⟨m, rule.2, TransformType.security, 85, secDescr m rule.2⟩])) acc

/-- The method `EthicalMirrorEngine.ethicalMirror`, parameterized by the two
rule tables (state of the initialized engine). -/
def ethicalMirror (ethTable secTable : List (String × String))
    (code : String) : TransformationResult :=
  let s1 := ethTable.foldl applyEthicalRule (code, [])
  let s2 := secTable.foldl applySecurityRule s1
  { originalCode := code, transformedCode := s2.1, transformations := s2.2 }

/-- Issue severity in `analyzeEthics`. -/
inductive EthSeverity
  | high
  | medium
  | low
deriving DecidableEq, Repr

/-- One entry of the `issues` array of `analyzeEthics`. -/
structure EthIssue where
  term : String
  severity : EthSeverity
  description : String
deriving DecidableEq, Repr

/-- Result of `analyzeEthics`. -/
structure EthicsAnalysis where
  ethicalScore : Int
  issues : List EthIssue
deriving DecidableEq, Repr

/-- The hardcoded tri-partition of the vocabulary in `analyzeEthics`. -/
def issueSeverity (term : String) : EthSeverity :=
  if ["drain", "steal", "hack", "scam", "fraud"].contains term then .high
  else if ["exploit", "attack", "vulnerability"].contains term then .medium
  else .low

/-- The method `EthicalMirrorEngine.analyzeEthics`: one issue per vocabulary
term that matches somewhere (whole word, case-insensitive), deduct 20/10/5
per issue from 100, clamp to [0, 100]. -/
def analyzeEthics (ethTable : List (String × String)) (code : String) :
    EthicsAnalysis :=
  let issues := ethTable.filterMap (fun rule =>
    if !(wwMatches rule.1 code).isEmpty then
      some ⟨rule.1, issueSeverity rule.1,
        "Обнаружен потенциально неэтичный термин \"" ++ rule.1 ++ "\""⟩
    else none)
  let score := issues.foldl (fun s i =>
    s - (match i.severity with
         | .high => (20 : Int)
         | .medium => 10
         | .low => 5)) (100 : Int)
  { ethicalScore := max 0 (min 100 score), issues := issues }

/-! ## NeuroSolidityAuditor: registry, scanner, scorer
(`src/neuro-solidity-auditor/index.ts`, lines 137–792) -/

/-- Severity tier of a finding.  The TypeScript type of
`Vulnerability.severity` is the closed union
`critical | high | medium | low | info`, so the JS weight-table default
(`severityWeights[vuln.severity] || 0`) is unreachable: there is no "other"
severity value. -/
inductive Severity
  | critical
  | high
  | medium
  | low
  | info
deriving DecidableEq, Repr

/-- Weight of a severity in `calculateSecurityScore`. -/
def severityWeight : Severity → Nat
  | .critical => 30
  | .high => 20
  | .medium => 10
  | .low => 5
  | .info => 1

/-- A reported finding, `Vulnerability` in the source (the impure
`Date.now()`-based `id` field is omitted). -/
structure Vulnerability where
  name : String
  severity : Severity
  description : String
  lineStart : Int
  lineEnd : Int
  codeSnippet : String
  recommendation : String
deriving DecidableEq, Repr

/-- The method `NeuroSolidityAuditor.calculateSecurityScore`: 100 for an
empty finding list, otherwise 100 minus the weight sum clamped at 100. -/
def calculateSecurityScore (vulnerabilities : List Vulnerability) : Int :=
  if vulnerabilities.length = 0 then 100
  else
    let totalPenalty : Int :=
      vulnerabilities.foldl (fun acc v => acc + (severityWeight v.severity : Int)) 0
    100 - min totalPenalty 100

/-- Lookup in a JS `Record` literal with a default for unknown keys. -/
def lookupD {α : Type} (table : List (String × α)) (key : String) (d : α) : α :=
  match table.find? (fun p => p.1 == key) with
  | some p => p.2
  | none => d

/-- The `getVulnerabilityName` key table. -/
def getVulnerabilityName (key : String) : String :=
  lookupD
    [("reentrancy", "Reentrancy Vulnerability"),
     ("integerOverflow", "Integer Overflow"),
     ("uncheckedReturn", "Unchecked Return Value"),
     ("txOrigin", "tx.origin Authentication"),
     ("unsecuredSelfDestruct", "Unsecured Self-Destruct")] key
    "Unknown Vulnerability"

/-- The `getVulnerabilitySeverity` key table. -/
def getVulnerabilitySeverity (key : String) : Severity :=
  lookupD
    [("reentrancy", Severity.critical),
     ("integerOverflow", Severity.high),
     ("uncheckedReturn", Severity.medium),
     ("txOrigin", Severity.high),
     ("unsecuredSelfDestruct", Severity.critical)] key
    Severity.medium

/-- The `getVulnerabilityDescription` key table. -/
def getVulnerabilityDescription (key : String) : String :=
  lookupD
    [("reentrancy", "Уязвимость повторного входа позволяет атакующему вызывать функцию контракта рекурсивно до завершения первого вызова."),
     ("integerOverflow", "Переполнение целочисленного типа может привести к неожиданным значениям переменных."),
     ("uncheckedReturn", "Необработанное возвращаемое значение может привести к неожиданному поведению контракта."),
     ("txOrigin", "Использование tx.origin для аутентификации небезопасно и может привести к фишинговым атакам."),
     ("unsecuredSelfDestruct", "Незащищенный вызов selfdestruct может позволить атакующему уничтожить контракт.")] key
    "Неизвестная уязвимость, требуется ручной анализ."

/-- The `getVulnerabilityRecommendation` key table. -/
def getVulnerabilityRecommendation (key : String) : String :=
  lookupD
    [("reentrancy", "Используйте паттерн Checks-Effects-Interactions или мьютекс для защиты от reentrancy атак."),
     ("integerOverflow", "Используйте библиотеку SafeMath для арифметических операций."),
     ("uncheckedReturn", "Всегда проверяйте возвращаемые значения низкоуровневых вызовов с помощью require()."),
     ("txOrigin", "Используйте msg.sender вместо tx.origin для аутентификации."),
     ("unsecuredSelfDestruct", "Добавьте проверки доступа перед вызовом selfdestruct.")] key
    "Требуется ручной анализ и исправление."

/-- All suffixes of a character list (candidate regex start positions). -/
def suffixes : List Char → List (List Char)
  | [] => [[]]
  | c :: cs => (c :: cs) :: suffixes cs

/-- Existential `\s*`/`.*` combinator: some (possibly empty) prefix of
characters satisfying `p` is skipped and the continuation matches the rest.
Encodes the backtracking existence semantics of `RegExp.test`. -/
def existsSkip (p : Char → Bool) (k : List Char → Bool) : List Char → Bool
  | [] => k []
  | c :: cs => k (c :: cs) || (p c && existsSkip p k cs)

/-- Single literal character combinator. -/
def headIs (c : Char) (k : List Char → Bool) : List Char → Bool
  | [] => false
  | x :: xs => x == c && k xs

/-- Case-insensitive literal combinator. -/
def litCI (pat : String) (k : List Char → Bool) (s : List Char) : Bool :=
  match stripCI pat.data s with
  | some (_, r) => k r
  | none => false

/-- Lookahead body `.*pat` (case-insensitive). -/
def dotStarContainsCI (pat : String) (s : List Char) : Bool :=
  existsSkip isDotChar (litCI pat (fun _ => true)) s

/-- Case-insensitive substring test (regex like `/a|b/i` on one literal). -/
def containsCI (s pat : String) : Bool :=
  (suffixes s.data).any (litCI pat (fun _ => true))

/-- Test of the `reentrancy` pattern
`(\.\s*call\s*{.*value\s*:.*})(?!.*_mutex)` with flag `i`. -/
def reentrancyTest (line : String) : Bool :=
  (suffixes line.data).any
    (headIs '.' (existsSkip isJsSpace (litCI "call" (existsSkip isJsSpace
      (headIs '{' (existsSkip isDotChar (litCI "value" (existsSkip isJsSpace
        (headIs ':' (existsSkip isDotChar (headIs '}'
          (fun rest => !dotStarContainsCI "_mutex" rest))))))))))))

/-- Test of the `integerOverflow` pattern
`(\+\+|\+=|=\s*\+)(?!.*SafeMath)` with flag `i`. -/
def integerOverflowTest (line : String) : Bool :=
  (suffixes line.data).any (fun s =>
    litCI "++" (fun rest => !dotStarContainsCI "SafeMath" rest) s ||
    litCI "+=" (fun rest => !dotStarContainsCI "SafeMath" rest) s ||
    headIs '=' (existsSkip isJsSpace (headIs '+'
      (fun rest => !dotStarContainsCI "SafeMath" rest))) s)

/-- Test of the `uncheckedReturn` pattern
`\.call\s*{.*}(?!.*require\s*\()` with flag `i`. -/
def uncheckedReturnTest (line : String) : Bool :=
  (suffixes line.data).any
    (headIs '.' (litCI "call" (existsSkip isJsSpace (headIs '{'
      (existsSkip isDotChar (headIs '}' (fun rest =>
        !existsSkip isDotChar (litCI "require" (existsSkip isJsSpace
          (headIs '(' (fun _ => true)))) rest)))))))

/-- Test of the `txOrigin` pattern `tx\.origin(?!.*!=)` with flag `i`. -/
def txOriginTest (line : String) : Bool :=
  (suffixes line.data).any
    (litCI "tx.origin" (fun rest => !dotStarContainsCI "!=" rest))

/-- Test of the `unsecuredSelfDestruct` pattern `selfdestruct|suicide` with
flag `i`. -/
def unsecuredSelfDestructTest (line : String) : Bool :=
  containsCI line "selfdestruct" || containsCI line "suicide"

/-- The `vulnerabilityPatterns` registry built by the constructor, in
`Object.entries` enumeration order (string-key insertion order). -/
def vulnerabilityPatterns : List (String × (String → Bool)) :=
  [("reentrancy", reentrancyTest),
   ("integerOverflow", integerOverflowTest),
   ("uncheckedReturn", uncheckedReturnTest),
   ("txOrigin", txOriginTest),
   ("unsecuredSelfDestruct", unsecuredSelfDestructTest)]

/-- JS `contractCode.split("\n")`: split at every newline, keeping empty
segments (`"".split("\n")` is `[""]`). -/
def splitLinesAux : List Char → List Char → List String
  | [], cur => [cur.reverse.asString]
  | c :: cs, cur =>
    if c == '\n' then cur.reverse.asString :: splitLinesAux cs []
    else splitLinesAux cs (c :: cur)

/-- The line list of a source text, `source.split("\n")` in JS. -/
def jsSplitLines (source : String) : List String := splitLinesAux source.data []

/-- JS `array.join("\n")`. -/
def joinWithNewlines : List String → String
  | [] => ""
  | [x] => x
  | x :: xs => x ++ "\n" ++ joinWithNewlines xs

/-- The finding pushed for a match of rule `key` on 0-based line `i`:
`lineStart = lineEnd = i + 1`, snippet `lines.slice(max(0, i-2), min(n, i+3))`
joined with newlines. -/
def mkFinding (key : String) (lines : List String) (i : Nat) : Vulnerability :=
  { name := getVulnerabilityName key,
    severity := getVulnerabilitySeverity key,
    description := getVulnerabilityDescription key,
    lineStart := (i : Int) + 1,
    lineEnd := (i : Int) + 1,
    codeSnippet :=
      joinWithNewlines
        ((lines.drop (i - 2)).take (min lines.length (i + 3) - (i - 2))),
    recommendation := getVulnerabilityRecommendation key }

/-- The built-in scanning loop of `NeuroSolidityAuditor.auditContract`
(lines 356–382): outer loop over lines, inner loop over registry entries,
pushing one finding per match, parameterized by the registry. -/
def auditFindings (pats : List (String × (String → Bool)))
    (source : String) : List Vulnerability :=
  let lines := jsSplitLines source
  (List.range lines.length).foldl (fun acc i =>
    pats.foldl (fun acc2 p =>
      if p.2 (lines.getD i "") then acc2 ++ [mkFinding p.1 lines i]
      else acc2) acc) []

/-! ## Model-integration path of `auditContract` -/

/-- POSIX `path.basename` for forward-slash paths. -/
def jsBasename (p : String) : String :=
  ((p.splitOn "/").getLast?).getD p

/-- One element of `ModelVulnerability.lines`. -/
structure ModelLine where
  line_number : Int
  line : String
  context : String
deriving DecidableEq, Repr

/-- A vulnerability in the external model's JSON format. -/
structure ModelVulnerability where
  name : String
  severity : String
  confidence : ℚ
  lines : List ModelLine
deriving DecidableEq, Repr

/-- The external model's audit result (`ModelAuditResult` interface;
`vulnerability_score` is optional at the JSON level, hence `Option`). -/
structure ModelAuditResult where
  is_vulnerable : Bool
  vulnerability_score : Option ℚ
  vulnerabilities : List ModelVulnerability
deriving DecidableEq, Repr

/-- The method `ModelIntegration.auditContract` (lines 63–76): the subprocess
invocation and `JSON.parse` are abstracted as an `Except` outcome; the
`catch` branch returns the sentinel object
`{is_vulnerable: true, vulnerability_score: 1.0, vulnerabilities: [], ...}`
instead of rethrowing. -/
def modelIntegrationAuditContract
    (outcome : Except Unit ModelAuditResult) : ModelAuditResult :=
  match outcome with
  | .ok r => r
  | .error _ =>
    { is_vulnerable := true, vulnerability_score := some 1, vulnerabilities := [] }

/-- The method `NeuroSolidityAuditor.mapSeverity`: unknown strings default to
`medium`. -/
def mapSeverity (s : String) : Severity :=
  if s == "critical" then .critical
  else if s == "high" then .high
  else if s == "medium" then .medium
  else if s == "low" then .low
  else if s == "info" then .info
  else .medium

/-- The `getVulnerabilityDescriptionByName` name table. -/
def getVulnerabilityDescriptionByName (name : String) : String :=
  lookupD
    [("Reentrancy Vulnerability", "Уязвимость повторного входа позволяет атакующему вызывать функцию контракта рекурсивно до завершения первого вызова."),
     ("Integer Overflow", "Переполнение целочисленного типа может привести к неожиданным значениям переменных."),
     ("Unchecked Return Value", "Необработанное возвращаемое значение может привести к неожиданному поведению контракта."),
     ("tx.origin Authentication", "Использование tx.origin для аутентификации небезопасно и может привести к фишинговым атакам."),
     ("Unsecured Self-Destruct", "Незащищенный вызов selfdestruct может позволить атакующему уничтожить контракт.")] name
    "Неизвестная уязвимость, требуется ручной анализ."

/-- The `getVulnerabilityRecommendationByName` name table. -/
def getVulnerabilityRecommendationByName (name : String) : String :=
  lookupD
    [("Reentrancy Vulnerability", "Используйте паттерн Checks-Effects-Interactions или мьютекс для защиты от reentrancy атак."),
     ("Integer Overflow", "Используйте библиотеку SafeMath для арифметических операций."),
     ("Unchecked Return Value", "Всегда проверяйте возвращаемые значения низкоуровневых вызовов с помощью require()."),
     ("tx.origin Authentication", "Используйте msg.sender вместо tx.origin для аутентификации."),
     ("Unsecured Self-Destruct", "Добавьте проверки доступа перед вызовом selfdestruct.")] name
    "Требуется ручной анализ и исправление."

/-- An audit result (`AuditResult` interface; `timestamp` omitted). -/
structure AuditResult where
  contractName : String
  contractPath : String
  vulnerabilities : List Vulnerability
  score : Int
deriving DecidableEq, Repr

/-- JS `Math.round` (round half toward positive infinity). -/
def jsRound (q : ℚ) : Int := ⌊q + 1 / 2⌋

/-- The method `NeuroSolidityAuditor.convertModelAuditResult`
(lines 407–443). -/
def convertModelAuditResult (modelResult : ModelAuditResult)
    (contractPath : String) : AuditResult :=
  let vulnerabilities := modelResult.vulnerabilities.map (fun vuln =>
    { name := vuln.name,
      severity := mapSeverity vuln.severity,
      description := getVulnerabilityDescriptionByName vuln.name,
      lineStart := match vuln.lines.head? with
                   | some l => l.line_number
                   | none => 0,
      lineEnd := match vuln.lines.getLast? with
                 | some l => l.line_number
                 | none => 0,
      codeSnippet := match vuln.lines.head? with
                     | some l => l.context
                     | none => "",
      recommendation := getVulnerabilityRecommendationByName vuln.name })
  let score := match modelResult.vulnerability_score with
               | some vs => jsRound ((1 - vs) * 100)
               | none => calculateSecurityScore vulnerabilities
  { contractName := jsBasename contractPath,
    contractPath := contractPath,
    vulnerabilities := vulnerabilities,
    score := score }

/-- The built-in analyzer path of `NeuroSolidityAuditor.auditContract`
(lines 350–395): scan the source with the registry and score the findings. -/
def auditContractBuiltin (contractPath source : String) : AuditResult :=
  let vulnerabilities := auditFindings vulnerabilityPatterns source
  { contractName := jsBasename contractPath,
    contractPath := contractPath,
    vulnerabilities := vulnerabilities,
    score := calculateSecurityScore vulnerabilities }

/-- The method `NeuroSolidityAuditor.auditContract` on an initialized auditor
(lines 329–400).  After `initialize()`, `modelIntegration` is always
non-null, so the model branch is taken; `ModelIntegration.auditContract`
never throws (it catches internally and returns the sentinel), and
`convertModelAuditResult` is total, so the outer `catch` that would reach
the built-in analyzer is unreachable on this branch. -/
def auditContract (outcome : Except Unit ModelAuditResult)
    (contractPath : String) : AuditResult :=
  convertModelAuditResult (modelIntegrationAuditContract outcome) contractPath

/-! ## Patch generator (`NeuroSolidityAuditor.generatePatch`, lines 598–641,
built-in branch) -/

/-- JS array indexing `lines[k]` for a possibly negative `Int` index:
`none` models `undefined` (on which the subsequent `.replace` call throws). -/
def jsIndexLine (lines : List String) (k : Int) : Option String :=
  if k < 0 then none else lines.get? k.toNat

/-- Nondeterministic continuation returning every reachable remainder: the
backtracking search space of a regex fragment. -/
def nret : List Char → List (List Char) := fun s => [s]

/-- Nondeterministic single-character combinator. -/
def nheadIs (c : Char) (k : List Char → List (List Char)) :
    List Char → List (List Char)
  | [] => []
  | x :: xs => if x == c then k xs else []

/-- Nondeterministic case-insensitive literal combinator. -/
def nlitCI (pat : String) (k : List Char → List (List Char)) (s : List Char) :
    List (List Char) :=
  match stripCI pat.data s with
  | some (_, r) => k r
  | none => []

/-- Nondeterministic `\s*`/`.*` combinator: all remainders over every
possible skip length. -/
def nstar (p : Char → Bool) (k : List Char → List (List Char)) :
    List Char → List (List Char)
  | [] => k []
  | c :: cs => k (c :: cs) ++ (if p c then nstar p k cs else [])

/-- All remainders after matching the reentrancy replace regex
`\.\s*call\s*{.*value\s*:.*}` (flag `i`, no lookahead in the `replace` call)
from the start of `s`. -/
def reentEnds (s : List Char) : List (List Char) :=
  nheadIs '.' (nstar isJsSpace (nlitCI "call" (nstar isJsSpace
    (nheadIs '{' (nstar isDotChar (nlitCI "value" (nstar isJsSpace
      (nheadIs ':' (nstar isDotChar (nheadIs '}' nret)))))))))) s

/-- Shortest remainder = greedy (longest) match extent.  For this pattern the
set of valid end positions is upward closed past the first valid one, so the
greedy backtracking extent is exactly the longest, i.e. the shortest
remainder. -/
def shortestRemainder (l : List (List Char)) : Option (List Char) :=
  l.foldl (fun best r =>
    match best with
    | none => some r
    | some b => if r.length < b.length then some r else some b) none

/-- Replacement template of the reentrancy patch, with `$1` (the whole
match) spliced in. -/
def reentTemplate (matched : String) : String :=
  "// DEP Security Patch: Added reentrancy protection\n" ++
  "    require(!_mutex, \"Reentrancy guard\");\n" ++
  "    _mutex = true;\n" ++
  "    " ++ matched ++ ";\n" ++
  "    _mutex = false;"

/-- First-match regex replace for the reentrancy branch of `generatePatch`. -/
def patchReentAux : List Char → Option (List Char)
  | [] => none
  | c :: cs =>
    match shortestRemainder (reentEnds (c :: cs)) with
    | some rem =>
      let matched := (c :: cs).take ((c :: cs).length - rem.length)
      some ((reentTemplate matched.asString).data ++ rem)
    | none =>
      match patchReentAux cs with
      | some l => some (c :: l)
      | none => none

/-- `line.replace(/(\.\s*call\s*{.*value\s*:.*})/i, reentrancy template)`. -/
def patchReentLine (line : String) : String :=
  match patchReentAux line.data with
  | some l => l.asString
  | none => line

/-- Tail of the third `integerOverflow` alternative `=\s*\+`: skip the
maximal whitespace run, then require a `+`. -/
def spacesThenPlus : List Char → Option (List Char)
  | [] => none
  | c :: cs =>
    if c == '+' then some cs
    else if isJsSpace c then spacesThenPlus cs
    else none

/-- First-alternative match of `/(\+\+|\+=|=\s*\+)/i` at the head of `s`
(JS alternation order: `++`, then `+=`, then `=\s*\+`). -/
def intOverflowMatchAt : List Char → Option (List Char)
  | '+' :: '+' :: r => some r
  | '+' :: '=' :: r => some r
  | '=' :: r => spacesThenPlus r
  | _ => none

/-- Replacement template of the integer-overflow patch (no `$` splice). -/
def intOverflowTemplate : String :=
  "// DEP Security Patch: Added SafeMath\n" ++
  "    using SafeMath for uint256;\n" ++
  "    // Replace with: value = value.add(amount);"

/-- First-match regex replace for the integer-overflow branch. -/
def patchIntOverflowAux : List Char → Option (List Char)
  | [] => none
  | c :: cs =>
    match intOverflowMatchAt (c :: cs) with
    | some r => some (intOverflowTemplate.data ++ r)
    | none =>
      match patchIntOverflowAux cs with
      | some l => some (c :: l)
      | none => none

/-- `line.replace(/(\+\+|\+=|=\s*\+)/i, SafeMath template)`. -/
def patchIntOverflowLine (line : String) : String :=
  match patchIntOverflowAux line.data with
  | some l => l.asString
  | none => line

/-- The built-in generator branch of `NeuroSolidityAuditor.generatePatch`
(lines 598–641): exact-match switch on `vulnerability.name`; `none` models
the `TypeError` thrown when `lines[lineStart - 1]` is `undefined`.  On an
initialized auditor this branch is unreachable (see `generatePatch` below):
it is the fallback the outer catch at line 592 intends to reach. -/
def generatePatchBuiltin (vulnerability : Vulnerability)
    (source : String) : Option String :=
  let lines := jsSplitLines source
  if vulnerability.name == "Reentrancy Vulnerability" then
    (jsIndexLine lines (vulnerability.lineStart - 1)).map patchReentLine
  else if vulnerability.name == "Integer Overflow" then
    (jsIndexLine lines (vulnerability.lineStart - 1)).map patchIntOverflowLine
  else
    some ("// DEP Security Patch: Please review this vulnerability manually\n// "
      ++ vulnerability.recommendation)

/-- The method `ModelIntegration.generatePatch` (lines 99–126): the
subprocess invocation is abstracted as an `Except` outcome whose error
carries the stringified exception.  The `catch` branch returns the comment
`// Ошибка при генерации патча: ${error}` instead of rethrowing, so this
method never rejects. -/
def modelIntegrationGeneratePatch (outcome : Except String String) : String :=
  match outcome with
  | .ok stdout => stdout
  | .error e => "// Ошибка при генерации патча: " ++ e

/-- The method `NeuroSolidityAuditor.generatePatch` on an initialized
auditor with a readable contract source (lines 563–641).  After
`initialize()`, `modelIntegration` is always non-null, so the model branch
is taken; reading the contract succeeds (readable source), and
`ModelIntegration.generatePatch` never throws — it returns either the
subprocess stdout or its own error comment.  Hence the inner catch at line
592 never fires and the built-in switch (`generatePatchBuiltin`) is
unreachable: the method returns the model result unconditionally.  The
`vulnerability` and contract source are only serialized into the subprocess
invocation, which the outcome abstracts. -/
def generatePatch (outcome : Except String String)
    (vulnerability : Vulnerability) (source : String) : String :=
  modelIntegrationGeneratePatch outcome

/-- A finding whose name is not one of the two keys handled by the patch
switch, used to evaluate the patch-generation paths. -/
def unknownKeyDemoVuln : Vulnerability :=
  { name := "tx.origin Authentication", severity := Severity.high,
    description := "d", lineStart := 1, lineEnd := 1, codeSnippet := "s",
    recommendation := "Используйте msg.sender вместо tx.origin для аутентификации." }

/-! ## ProofOfHumanism (`src/proof-of-humanism/index.ts`) -/

/-- The consensus threshold record, `EthicalThreshold` in the source
(`lastUpdated : Date` omitted). -/
structure EthicalThreshold where
  value : ℚ
  proposedBy : String
  votes : List (String × Bool)
deriving DecidableEq, Repr

/-- Observable state of a `ProofOfHumanism` instance. -/
structure PoHState where
  initialized : Bool
  ethicalThreshold : EthicalThreshold
deriving DecidableEq, Repr

/-- Threshold set by the constructor. -/
def constructorThreshold : EthicalThreshold :=
  { value := 70, proposedBy := "DEP Framework", votes := [] }

/-- Threshold installed by `loadEthicalThreshold` during `initialize()`. -/
def loadedThreshold : EthicalThreshold :=
  { value := 75, proposedBy := "DAO Governance",
    votes := [("validator1", true), ("validator2", true),
              ("validator3", false), ("validator4", true)] }

/-- State of a `ProofOfHumanism` instance right after `initialize()`. -/
def initializedPoH : PoHState :=
  { initialized := true, ethicalThreshold := loadedThreshold }

/-- A Solana signature slot: `signature` is `Buffer | null`; only nullness is
observed (`sig.signature !== null`), so the payload is abstract. -/
structure SigPair where
  signature : Option String
deriving DecidableEq, Repr

/-- A transaction as observed by `ProofOfHumanism`: the
`JSON.stringify(transaction)` serialization used by all pattern checks is
abstracted as the field `txString`, and the signature array is explicit. -/
structure Transaction where
  txString : String
  signatures : List SigPair
deriving DecidableEq, Repr

/-- Alternation test `new RegExp(a|b|c, "i")` on the serialized form. -/
def containsAnyCI (s : String) (alts : List String) : Bool :=
  alts.any (fun a => containsCI s a)

/-- The `ethicalPatterns` table: each entry raises the score by 10. -/
def pohEthicalPatterns : List (List String) :=
  [["donate", "charity", "support"],
   ["community", "ecosystem", "public"],
   ["transparent", "open", "visible"]]

/-- The `unethicalPatterns` table: each entry lowers the score by 20. -/
def pohUnethicalPatterns : List (List String) :=
  [["drain", "steal", "hack"],
   ["attack", "exploit", "vulnerability"],
   ["scam", "fraud", "fake"]]

/-- The method `hasLargeAmounts`: `/\d{10,}/` on the serialization, i.e. ten
consecutive ASCII digits somewhere. -/
def hasLargeAmounts (txString : String) : Bool :=
  (suffixes txString.data).any (fun s =>
    (s.take 10).length == 10 && (s.take 10).all isDigitChar)

/-- The method `involvesEthicalAddresses`: literal containment of one of the
three hard-coded addresses. -/
def involvesEthicalAddresses (txString : String) : Bool :=
  ["CharityWallet123", "DonationAddress456", "CommunityFund789"].any
    (fun addr => containsSubstr txString addr)

/-- The method `calculateHumanismIndex` (lines 194–239): base 50, +10 per
ethical pattern, −20 per unethical pattern, −15 for large amounts, +15 for
known ethical addresses, clamped to [0, 100]. -/
def calculateHumanismIndex (tx : Transaction) : ℚ :=
  let s0 : ℚ := 50
  let s1 := pohEthicalPatterns.foldl
    (fun sc pat => if containsAnyCI tx.txString pat then sc + 10 else sc) s0
  let s2 := pohUnethicalPatterns.foldl
    (fun sc pat => if containsAnyCI tx.txString pat then sc - 20 else sc) s1
  let s3 := if hasLargeAmounts tx.txString then s2 - 15 else s2
  let s4 := if involvesEthicalAddresses tx.txString then s3 + 15 else s3
  max 0 (min 100 s4)

/-- The method `cryptographicVerify` (lines 245–265): false when the
signature list is empty, otherwise every signature must be non-null. -/
def cryptographicVerify (tx : Transaction) : Bool :=
  if tx.signatures.isEmpty then false
  else tx.signatures.all (fun sig => sig.signature.isSome)

/-- The validation outcome, `EthicalTransaction` in the source (the
`transaction` back-reference is omitted). -/
structure EthicalTransaction where
  ethicalScore : ℚ
  humanismIndex : ℚ
  validationResult : Bool
  validationReason : String
deriving DecidableEq, Repr

/-- The method `validateTransaction` (lines 153–188). -/
def validateTransaction (s : PoHState) (tx : Transaction) :
    Except String EthicalTransaction :=
  if !s.initialized then .error "ProofOfHumanism не инициализирован"
  else
    let humanismIndex := calculateHumanismIndex tx
    let isValid : Bool := humanismIndex > s.ethicalThreshold.value
    let isCryptographicallyValid := cryptographicVerify tx
    let validationResult := isValid && isCryptographicallyValid
    .ok
      { ethicalScore := humanismIndex,
        humanismIndex := humanismIndex,
        validationResult := validationResult,
        validationReason :=
          if validationResult then
            "Транзакция соответствует этическим и криптографическим требованиям"
          else
            "Транзакция " ++
              (if !isValid then "не соответствует этическим требованиям"
               else "криптографически некорректна") }

/-- The method `proposeNewThreshold` (lines 352–382).  The method body never
assigns `this.ethicalThreshold`, so the state component of the result is the
input state in every branch; out-of-range proposals throw. -/
def proposeNewThreshold (s : PoHState) (proposerId : String)
    (newThreshold : ℚ) : Except String EthicalThreshold × PoHState :=
  if !s.initialized then
    (.error "ProofOfHumanism не инициализирован", s)
  else if newThreshold < 0 ∨ newThreshold > 100 then
    (.error "Порог этичности должен быть в диапазоне 0-100", s)
  else
    (.ok { value := newThreshold, proposedBy := proposerId, votes := [] }, s)

/-- The method `getEthicalThreshold` (lines 387–393). -/
def getEthicalThreshold (s : PoHState) : Except String EthicalThreshold :=
  if !s.initialized then .error "ProofOfHumanism не инициализирован"
  else .ok s.ethicalThreshold

/-! ## Concrete inputs used by the spec's example-based properties -/

/-- The spec's ethics/transform test string
`function drainWallet() { steal(funds); }`. -/
def ethicsDemoInput : String := "function drainWallet() \x7b steal(funds); \x7d"

/-- A one-line contract source on which the built-in scanner finds exactly
one critical vulnerability (the self-destruct rule). -/
def sentinelDemoSource : String := "selfdestruct(payable(owner));"

/-! ## Helper lemmas -/

lemma foldl_add_weight (l : List Vulnerability) (c : Int) :
    l.foldl (fun acc v => acc + (severityWeight v.severity : Int)) c
      = c + (l.map fun v => (severityWeight v.severity : Int)).sum := by
  induction l generalizing c with
  | nil => simp
  | cons v t ih => simp [ih]; ring

lemma weight_sum_ge_length (l : List Vulnerability) :
    (l.length : Int) ≤ (l.map fun v => (severityWeight v.severity : Int)).sum := by
  induction l with
  | nil => simp
  | cons v t ih =>
    have h1 : (1 : Int) ≤ (severityWeight v.severity : Int) := by
      cases v.severity <;> simp [severityWeight]
    simp only [List.map_cons, List.sum_cons, List.length_cons]
    push_cast
    linarith

lemma calculateSecurityScore_eq (F : List Vulnerability) :
    calculateSecurityScore F =
      if F = [] then 100
      else 100 - min (100 : Int) ((F.map fun v => (severityWeight v.severity : Int)).sum) := by
  unfold calculateSecurityScore
  by_cases hF : F = []
  · simp [hF]
  · have hlen : ¬ F.length = 0 := by simpa [List.length_eq_zero] using hF
    rw [if_neg hlen, if_neg hF, foldl_add_weight, zero_add, min_comm]

/-- C1.  The scorer is the claimed pure function: 100 on the empty list,
otherwise `100 - min(100, Σ severity weights)`; consequently the score stays
in [0, 100], equals 100 exactly on the empty list, and appending a finding
never increases it. -/
theorem calculateSecurityScore_spec (F : List Vulnerability) :
    (calculateSecurityScore F =
      if F = [] then 100
      else 100 - min (100 : Int) ((F.map fun v => (severityWeight v.severity : Int)).sum))
    ∧ 0 ≤ calculateSecurityScore F
    ∧ calculateSecurityScore F ≤ 100
    ∧ (calculateSecurityScore F = 100 ↔ F = [])
    ∧ ∀ v : Vulnerability, calculateSecurityScore (F ++ [v]) ≤ calculateSecurityScore F := by
  have hle : ∀ l : List Vulnerability,
      (0 : Int) ≤ (l.map fun v => (severityWeight v.severity : Int)).sum := by
    intro l
    calc (0 : Int) ≤ (l.length : Int) := by positivity
    _ ≤ _ := weight_sum_ge_length l
  refine ⟨calculateSecurityScore_eq F, ?_, ?_, ?_, ?_⟩
  · rw [calculateSecurityScore_eq]
    by_cases hF : F = []
    · simp [hF]
    · rw [if_neg hF]
      have := min_le_left (100 : Int)
        ((F.map fun v => (severityWeight v.severity : Int)).sum)
      linarith
  · rw [calculateSecurityScore_eq]
    by_cases hF : F = []
    · simp [hF]
    · rw [if_neg hF]
      have h0 : (0 : Int) ≤ min (100 : Int)
          ((F.map fun v => (severityWeight v.severity : Int)).sum) :=
        le_min (by norm_num) (hle F)
      linarith
  · constructor
    · intro h
      by_contra hF
      rw [calculateSecurityScore_eq, if_neg hF] at h
      have hlen : (1 : Int) ≤ (F.length : Int) := by
        have := List.length_pos.mpr hF
        exact_mod_cast this
      have h1 : (1 : Int) ≤ min (100 : Int)
          ((F.map fun v => (severityWeight v.severity : Int)).sum) :=
        le_min (by norm_num) (hlen.trans (weight_sum_ge_length F))
      linarith
    · intro h
      rw [calculateSecurityScore_eq, if_pos h]
  · intro v
    have happ : F ++ [v] ≠ [] := by simp
    rw [calculateSecurityScore_eq, calculateSecurityScore_eq, if_neg happ]
    by_cases hF : F = []
    · rw [if_pos hF]
      have h0 : (0 : Int) ≤ min (100 : Int)
          (((F ++ [v]).map fun w => (severityWeight w.severity : Int)).sum) :=
        le_min (by norm_num) (hle (F ++ [v]))
      linarith
    · rw [if_neg hF]
      have hsum : ((F.map fun w => (severityWeight w.severity : Int)).sum)
          ≤ (((F ++ [v]).map fun w => (severityWeight w.severity : Int)).sum) := by
        simp only [List.map_append, List.sum_append, List.map_cons, List.map_nil,
          List.sum_cons, List.sum_nil]
        have : (0 : Int) ≤ (severityWeight v.severity : Int) := by positivity
        linarith
      have := min_le_min (le_refl (100 : Int)) hsum
      linarith

set_option maxRecDepth 100000 in
/-- C3 counterexample.  On the exact spec input the claim is false: the
whole-word matcher does not match `drain` inside `drainWallet`, so no issue
with term `drain` is reported. -/
theorem analyzeEthics_drainWallet_refuted :
    ¬ ((analyzeEthics initEthicalPatterns ethicsDemoInput).ethicalScore < 100
      ∧ ((analyzeEthics initEthicalPatterns ethicsDemoInput).issues.any
          (fun i => i.term == "drain")) = true
      ∧ ((analyzeEthics initEthicalPatterns ethicsDemoInput).issues.any
          (fun i => i.term == "steal")) = true) := by
  decide

set_option maxRecDepth 100000 in
/-- C3 amended.  On `"function drainWallet() { steal(funds); }"` the
initialized ethics analyzer reports `ethicalScore = 80 < 100` and exactly one
issue, for the term `steal`; `drainWallet` is not a whole-word match of
`drain`, so no `drain` issue appears. -/
theorem analyzeEthics_drainWallet_amended :
    (analyzeEthics initEthicalPatterns ethicsDemoInput).ethicalScore = 80
    ∧ (analyzeEthics initEthicalPatterns ethicsDemoInput).ethicalScore < 100
    ∧ (analyzeEthics initEthicalPatterns ethicsDemoInput).issues.map (fun i => i.term)
        = ["steal"]
    ∧ ((analyzeEthics initEthicalPatterns ethicsDemoInput).issues.any
        (fun i => i.term == "drain")) = false := by
  decide

set_option maxRecDepth 100000 in
/-- C4 counterexample.  On the exact spec input the claim is false: `drain`
never matches (whole-word), so no `protect` annotation is inserted and only
one transformation is recorded. -/
theorem ethicalMirror_drainWallet_refuted :
    ¬ (containsSubstr (ethicalMirror initEthicalPatterns securityPatternsTable
          ethicsDemoInput).transformedCode "protect" = true
      ∧ containsSubstr (ethicalMirror initEthicalPatterns securityPatternsTable
          ethicsDemoInput).transformedCode "audit" = true
      ∧ 2 ≤ (ethicalMirror initEthicalPatterns securityPatternsTable
          ethicsDemoInput).transformations.length) := by
  decide

set_option maxRecDepth 100000 in
/-- C4 amended.  On `"function drainWallet() { steal(funds); }"` the
initialized Transform Engine inserts the `audit` annotation for `steal`
(and `audit` occurs in the output), inserts no `protect` text, and records
exactly one transformation. -/
theorem ethicalMirror_drainWallet_amended :
    containsSubstr (ethicalMirror initEthicalPatterns securityPatternsTable
        ethicsDemoInput).transformedCode "audit" = true
    ∧ containsSubstr (ethicalMirror initEthicalPatterns securityPatternsTable
        ethicsDemoInput).transformedCode "protect" = false
    ∧ (ethicalMirror initEthicalPatterns securityPatternsTable
        ethicsDemoInput).transformations.length = 1
    ∧ (ethicalMirror initEthicalPatterns securityPatternsTable
        ethicsDemoInput).transformedCode
      = "function drainWallet() \x7b /* Ethical transformation: steal -> audit */ audit(funds); \x7d" := by
  decide

set_option maxRecDepth 100000 in
/-- C7.  The Transform Engine is not idempotent: on input `"steal"` the
annotation inserted by the first pass itself contains the whole word
`steal`, so a second pass rewrites it again. -/
theorem ethicalMirror_not_idempotent :
    ∃ x : String,
      (ethicalMirror initEthicalPatterns securityPatternsTable
        ((ethicalMirror initEthicalPatterns securityPatternsTable x).transformedCode)).transformedCode
      ≠ (ethicalMirror initEthicalPatterns securityPatternsTable x).transformedCode := by
  refine ⟨"steal", ?_⟩
  decide

lemma applyEthicalRule_of_no_match (acc : String × List CodeTransformation)
    (rule : String × String) (h : wwMatches rule.1 acc.1 = []) :
    applyEthicalRule acc rule = acc := by
  simp [applyEthicalRule, h]

lemma applySecurityRule_of_no_match (acc : String × List CodeTransformation)
    (rule : String × String) (h : secMatches rule.1 acc.1 = []) :
    applySecurityRule acc rule = acc := by
  simp [applySecurityRule, h]

lemma foldl_applyEthicalRule_no_match (tbl : List (String × String))
    (code : String) (tr : List CodeTransformation)
    (h : ∀ r ∈ tbl, wwMatches r.1 code = []) :
    tbl.foldl applyEthicalRule (code, tr) = (code, tr) := by
  induction tbl with
  | nil => rfl
  | cons r t ih =>
    rw [List.foldl_cons,
      applyEthicalRule_of_no_match (code, tr) r (h r (List.mem_cons_self r t))]
    exact ih (fun x hx => h x (List.mem_cons_of_mem r hx))

lemma foldl_applySecurityRule_no_match (tbl : List (String × String))
    (code : String) (tr : List CodeTransformation)
    (h : ∀ r ∈ tbl, secMatches r.1 code = []) :
    tbl.foldl applySecurityRule (code, tr) = (code, tr) := by
  induction tbl with
  | nil => rfl
  | cons r t ih =>
    rw [List.foldl_cons,
      applySecurityRule_of_no_match (code, tr) r (h r (List.mem_cons_self r t))]
    exact ih (fun x hx => h x (List.mem_cons_of_mem r hx))

lemma ethicalMirror_no_match_general (ethTable secTable : List (String × String))
    (code : String) (he : ∀ r ∈ ethTable, wwMatches r.1 code = [])
    (hs : ∀ r ∈ secTable, secMatches r.1 code = []) :
    ethicalMirror ethTable secTable code =
      { originalCode := code, transformedCode := code, transformations := [] } := by
  simp only [ethicalMirror]
  rw [foldl_applyEthicalRule_no_match _ code [] he,
      foldl_applySecurityRule_no_match _ code [] hs]

lemma ethicalMirror_originalCode (ethTable secTable : List (String × String))
    (code : String) :
    (ethicalMirror ethTable secTable code).originalCode = code := by
  simp only [ethicalMirror]

set_option maxRecDepth 100000 in
/-- C10 counterexample.  The claim's hypothesis speaks of security rules
matching "as a case-sensitive substring", but the source compiles the table
keys as regexes, so the `.` in `tx.origin` is a wildcard: on `"txXorigin"`
no ethical rule matches, no security pattern occurs as a literal substring,
and yet the transform rewrites the input. -/
theorem ethicalMirror_noMatch_refuted :
    (∀ r ∈ initEthicalPatterns, wwMatches r.1 "txXorigin" = [])
    ∧ (∀ r ∈ securityPatternsTable, containsSubstr "txXorigin" r.1 = false)
    ∧ (ethicalMirror initEthicalPatterns securityPatternsTable
        "txXorigin").transformedCode ≠ "txXorigin" := by
  decide

/-- C10 amended.  When no ethical rule matches (whole-word,
case-insensitive) and no security rule matches *as the regex the code
builds from it* (`.` is a wildcard), the initialized transform returns the
input unchanged with an empty transformation list; and for every input the
`originalCode` field is the input itself. -/
theorem ethicalMirror_noMatch_amended :
    (∀ code : String,
      (∀ r ∈ initEthicalPatterns, wwMatches r.1 code = []) →
      (∀ r ∈ securityPatternsTable, secMatches r.1 code = []) →
      (ethicalMirror initEthicalPatterns securityPatternsTable
          code).transformedCode = code
      ∧ (ethicalMirror initEthicalPatterns securityPatternsTable
          code).transformations = [])
    ∧ ∀ code : String,
        (ethicalMirror initEthicalPatterns securityPatternsTable
          code).originalCode = code := by
  constructor
  · intro code he hs
    rw [ethicalMirror_no_match_general initEthicalPatterns securityPatternsTable code he hs]
    exact ⟨rfl, rfl⟩
  · intro code
    rw [ethicalMirror_originalCode initEthicalPatterns securityPatternsTable code]

set_option maxRecDepth 100000 in
/-- C10 witness: on `"pragma solidity;"` no rule of either table matches and
the transform is the identity with no recorded transformations. -/
theorem ethicalMirror_noMatch_witness :
    (∀ r ∈ initEthicalPatterns, wwMatches r.1 "pragma solidity;" = [])
    ∧ (∀ r ∈ securityPatternsTable, secMatches r.1 "pragma solidity;" = [])
    ∧ (ethicalMirror initEthicalPatterns securityPatternsTable
        "pragma solidity;").transformedCode = "pragma solidity;"
    ∧ (ethicalMirror initEthicalPatterns securityPatternsTable
        "pragma solidity;").transformations = [] := by
  have h := ethicalMirror_noMatch_amended.1 "pragma solidity;" (by decide) (by decide)
  exact ⟨by decide, by decide, h.1, h.2⟩

/-- C5.  On an initialized instance, `proposeNewThreshold` fails for every
proposal outside [0, 100] and leaves the observable threshold unchanged
(the method never assigns `this.ethicalThreshold`), and succeeds for every
proposal in [0, 100]. -/
theorem proposeNewThreshold_validation (s : PoHState) (proposerId : String)
    (t : ℚ) (hinit : s.initialized = true) :
    ((t < 0 ∨ t > 100) →
      (∃ msg, (proposeNewThreshold s proposerId t).1 = Except.error msg)
      ∧ getEthicalThreshold (proposeNewThreshold s proposerId t).2
          = getEthicalThreshold s)
    ∧ (0 ≤ t → t ≤ 100 →
      (proposeNewThreshold s proposerId t).1
        = Except.ok { value := t, proposedBy := proposerId, votes := [] }) := by
  have hni : (!s.initialized) = false := by rw [hinit]; rfl
  constructor
  · intro h
    unfold proposeNewThreshold
    rw [hni]
    simp only [Bool.false_eq_true, if_false, if_pos h]
    exact ⟨⟨_, rfl⟩, by trivial⟩
  · intro h0 h1
    unfold proposeNewThreshold
    rw [hni]
    simp only [Bool.false_eq_true, if_false]
    rw [if_neg (by push_neg; exact ⟨h0, h1⟩)]

/-- C5 witness: on the initialized instance, proposing 150 fails and leaves
the threshold observable unchanged; proposing 85 succeeds. -/
theorem proposeNewThreshold_validation_witness :
    initializedPoH.initialized = true
    ∧ ((150 : ℚ) < 0 ∨ (150 : ℚ) > 100)
    ∧ (∃ msg, (proposeNewThreshold initializedPoH "TestProposer" 150).1
        = Except.error msg)
    ∧ getEthicalThreshold (proposeNewThreshold initializedPoH "TestProposer" 150).2
        = getEthicalThreshold initializedPoH
    ∧ (proposeNewThreshold initializedPoH "TestProposer" 85).1
        = Except.ok { value := 85, proposedBy := "TestProposer", votes := [] } := by
  have h150 := (proposeNewThreshold_validation initializedPoH "TestProposer" 150 rfl).1
    (Or.inr (by norm_num))
  have h85 := (proposeNewThreshold_validation initializedPoH "TestProposer" 85 rfl).2
    (by norm_num) (by norm_num)
  exact ⟨rfl, Or.inr (by norm_num), h150.1, h150.2, h85⟩

lemma containsAux_append_self (a b : List Char) :
    containsAux b (a ++ b) = true := by
  induction a with
  | nil =>
    cases b with
    | nil => rfl
    | cons c cs =>
      simp only [List.nil_append, containsAux, Bool.or_eq_true]
      exact Or.inl (by simp [List.isPrefixOf_iff_prefix])
  | cons x xs ih =>
    simp only [List.cons_append, containsAux, Bool.or_eq_true]
    exact Or.inr ih

lemma containsSubstr_append_right (a b : String) :
    containsSubstr (a ++ b) b = true := by
  unfold containsSubstr
  rw [String.data_append]
  exact containsAux_append_self a.data b.data

/-- Behavior of the built-in generator branch alone (the fallback mandated
by the spec): for every vulnerability whose name is not one of the two keys
of the patch switch it returns the generic advisory comment embedding the
stored recommendation — non-empty, containing the recommendation as a
substring, never throwing.  On an initialized auditor this branch is dead
code; see the C8 theorem below. -/
theorem generatePatch_unknownKey (vulnerability : Vulnerability) (source : String)
    (h1 : vulnerability.name ≠ "Reentrancy Vulnerability")
    (h2 : vulnerability.name ≠ "Integer Overflow") :
    generatePatchBuiltin vulnerability source
      = some ("// DEP Security Patch: Please review this vulnerability manually\n// "
          ++ vulnerability.recommendation)
    ∧ ("// DEP Security Patch: Please review this vulnerability manually\n// "
        ++ vulnerability.recommendation) ≠ ""
    ∧ containsSubstr
        ("// DEP Security Patch: Please review this vulnerability manually\n// "
          ++ vulnerability.recommendation) vulnerability.recommendation = true := by
  refine ⟨?_, ?_, containsSubstr_append_right _ _⟩
  · unfold generatePatchBuiltin
    rw [if_neg (by simpa using h1), if_neg (by simpa using h2)]
  · intro hcontra
    have hlen := congrArg String.length hcontra
    rw [String.length_append] at hlen
    have hpos : 0 < ("// DEP Security Patch: Please review this vulnerability manually\n// " : String).length := by
      decide
    have hz : ("" : String).length = 0 := rfl
    omega

/-- Concrete instance of `generatePatch_unknownKey`: a finding with the
unknown name `tx.origin Authentication` yields the advisory patch embedding
its recommendation from the built-in branch. -/
theorem generatePatch_unknownKey_witness :
    ("tx.origin Authentication" : String) ≠ "Reentrancy Vulnerability"
    ∧ ("tx.origin Authentication" : String) ≠ "Integer Overflow"
    ∧ generatePatchBuiltin
        { name := "tx.origin Authentication", severity := Severity.high,
          description := "d", lineStart := 1, lineEnd := 1,
          codeSnippet := "s",
          recommendation := "Используйте msg.sender вместо tx.origin для аутентификации." }
        "require(tx.origin == owner);"
      = some ("// DEP Security Patch: Please review this vulnerability manually\n// Используйте msg.sender вместо tx.origin для аутентификации.") := by
  refine ⟨by decide, by decide, ?_⟩
  exact (generatePatch_unknownKey
    { name := "tx.origin Authentication", severity := Severity.high,
      description := "d", lineStart := 1, lineEnd := 1,
      codeSnippet := "s",
      recommendation := "Используйте msg.sender вместо tx.origin для аутентификации." }
    "require(tx.origin == owner);" (by decide) (by decide)).1

lemma cryptographicVerify_eq_true_iff (tx : Transaction) :
    cryptographicVerify tx = true ↔
      tx.signatures ≠ [] ∧ ∀ sig ∈ tx.signatures, sig.signature ≠ none := by
  unfold cryptographicVerify
  by_cases h : tx.signatures = []
  · simp [h]
  · have hne : tx.signatures.isEmpty = false := by
      simpa [List.isEmpty_iff] using h
    rw [hne]
    simp only [Bool.false_eq_true, if_false, List.all_eq_true]
    constructor
    · intro hall
      exact ⟨h, fun sig hs => by
        have := hall sig hs
        simpa [Option.isSome_iff_ne_none] using this⟩
    · intro ⟨_, hall⟩ sig hs
      simpa [Option.isSome_iff_ne_none] using hall sig hs

/-- C9.  On an initialized instance, `validateTransaction` succeeds and its
`validationResult` is true exactly when the humanism index strictly exceeds
the stored threshold and the signature list is non-empty with every
signature non-null; equality with the threshold rejects, and an empty
signature list rejects regardless of the index. -/
theorem validateTransaction_spec (s : PoHState) (tx : Transaction)
    (hinit : s.initialized = true) :
    ∃ et, validateTransaction s tx = Except.ok et
      ∧ (et.validationResult = true ↔
          (calculateHumanismIndex tx > s.ethicalThreshold.value
            ∧ tx.signatures ≠ []
            ∧ ∀ sig ∈ tx.signatures, sig.signature ≠ none))
      ∧ (calculateHumanismIndex tx = s.ethicalThreshold.value →
          et.validationResult = false)
      ∧ (tx.signatures = [] → et.validationResult = false)
      ∧ et.humanismIndex = calculateHumanismIndex tx
      ∧ et.ethicalScore = calculateHumanismIndex tx := by
  have hni : (!s.initialized) = false := by rw [hinit]; rfl
  unfold validateTransaction
  rw [hni]
  simp only [Bool.false_eq_true, if_false]
  refine ⟨_, rfl, ?_, ?_, ?_, rfl, rfl⟩
  · simp only [Bool.and_eq_true, decide_eq_true_eq,
      cryptographicVerify_eq_true_iff, and_assoc]
  · intro heq
    have hlt : ¬ (calculateHumanismIndex tx > s.ethicalThreshold.value) := by
      rw [heq]; exact lt_irrefl _
    simp [hlt]
  · intro hemp
    have hcv : cryptographicVerify tx = false := by
      unfold cryptographicVerify
      simp [hemp]
    simp [hcv]

/-- C9 witness: the theorem applied to the initialized instance and a
concrete transaction with one non-null signature. -/
theorem validateTransaction_spec_witness :
    initializedPoH.initialized = true
    ∧ ∃ et, validateTransaction initializedPoH
        { txString := "transfer", signatures := [{ signature := some "sig" }] }
        = Except.ok et
      ∧ (et.validationResult = true ↔
          (calculateHumanismIndex
              { txString := "transfer", signatures := [{ signature := some "sig" }] }
            > initializedPoH.ethicalThreshold.value
            ∧ ({ signature := some "sig" } :: ([] : List SigPair)) ≠ []
            ∧ ∀ sig ∈ ({ signature := some "sig" } :: ([] : List SigPair)),
                sig.signature ≠ none))
      ∧ (calculateHumanismIndex
            { txString := "transfer", signatures := [{ signature := some "sig" }] }
          = initializedPoH.ethicalThreshold.value → et.validationResult = false)
      ∧ (([{ signature := some "sig" }] : List SigPair) = [] →
          et.validationResult = false)
      ∧ et.humanismIndex = calculateHumanismIndex
          { txString := "transfer", signatures := [{ signature := some "sig" }] }
      ∧ et.ethicalScore = calculateHumanismIndex
          { txString := "transfer", signatures := [{ signature := some "sig" }] } :=
  ⟨rfl, validateTransaction_spec initializedPoH
    { txString := "transfer", signatures := [{ signature := some "sig" }] } rfl⟩

set_option maxRecDepth 100000 in
/-- C2 (code bug).  When the external model invocation fails,
`ModelIntegration.auditContract` swallows the error and returns a sentinel
(`vulnerability_score = 1.0`, no vulnerabilities), so
`NeuroSolidityAuditor.auditContract` converts the sentinel — empty finding
list, score 0 — and the built-in Scanner/Scorer never run: on the source
`"selfdestruct(payable(owner));"` the built-in path would report one critical
finding and score 70.  The outer catch that comments "continue with the
built-in analyzer" is unreachable, contradicting the mandatory-fallback
contract. -/
theorem auditContract_modelFailure_sentinel :
    (auditContract (Except.error ()) "Vault.sol").vulnerabilities = []
    ∧ (auditContract (Except.error ()) "Vault.sol").score = 0
    ∧ (auditContractBuiltin "Vault.sol" sentinelDemoSource).score = 70
    ∧ (auditContractBuiltin "Vault.sol" sentinelDemoSource).vulnerabilities.length = 1
    ∧ auditContract (Except.error ()) "Vault.sol"
        ≠ auditContractBuiltin "Vault.sol" sentinelDemoSource := by
  have hsc : (auditContract (Except.error ()) "Vault.sol").score = 0 := by
    show jsRound ((1 - 1) * 100) = 0
    unfold jsRound
    rw [show ((1 : ℚ) - 1) * 100 + 1 / 2 = 1 / 2 by norm_num]
    rw [Int.floor_eq_zero_iff]
    norm_num [Set.mem_Ico]
  have hb : (auditContractBuiltin "Vault.sol" sentinelDemoSource).score = 70 := by
    decide
  have hbl : (auditContractBuiltin "Vault.sol"
      sentinelDemoSource).vulnerabilities.length = 1 := by decide
  refine ⟨rfl, hsc, hb, hbl, ?_⟩
  intro heq
  have h0 := congrArg AuditResult.score heq
  rw [hsc, hb] at h0
  exact absurd h0 (by norm_num)

/-! ## Helper lemmas for the scanner characterization -/

lemma foldl_if_append {α β : Type} (l : List α) (c : α → Bool) (f : α → β)
    (acc : List β) :
    l.foldl (fun acc2 a => if c a then acc2 ++ [f a] else acc2) acc
      = acc ++ (l.filter c).map f := by
  induction l generalizing acc with
  | nil => simp
  | cons a t ih =>
    rw [List.foldl_cons]
    cases hca : c a with
    | true =>
      simp only [if_true]
      rw [ih, List.filter_cons_of_pos hca]
      simp [List.append_assoc]
    | false =>
      simp only [Bool.false_eq_true, if_false]
      rw [ih, List.filter_cons_of_neg (by simp [hca])]

lemma filter_flatMap_comm {α β : Type} (l : List α) (g : α → List β) (q : β → Bool) :
    (l.flatMap g).filter q = l.flatMap (fun a => (g a).filter q) := by
  induction l with
  | nil => rfl
  | cons a t ih => simp [List.flatMap_cons, List.filter_append, ih]

lemma flatMap_ite_singleton_length {α : Type} (l : List Nat) (c : Nat → Bool)
    (x : Nat → α) :
    (l.flatMap (fun j => if c j then [x j] else [])).length = (l.filter c).length := by
  induction l with
  | nil => rfl
  | cons a t ih =>
    rw [List.flatMap_cons, List.length_append, ih, List.filter_cons]
    cases hca : c a with
    | true => simp [Nat.add_comm]
    | false => simp

lemma flatMap_ite_const_length {α : Type} (l : List Nat) (i : Nat) (K : List α)
    (hnd : l.Nodup) (hmem : i ∈ l) :
    (l.flatMap (fun j => if j = i then K else [])).length = K.length := by
  induction l with
  | nil => cases hmem
  | cons a t ih =>
    rw [List.nodup_cons] at hnd
    rw [List.flatMap_cons, List.length_append]
    by_cases hai : a = i
    · subst hai
      rw [if_pos rfl]
      have ht : t.flatMap (fun j => if j = a then K else []) = [] := by
        apply List.flatMap_eq_nil_iff.mpr
        intro j hj
        rw [if_neg]
        intro hja
        exact hnd.1 (hja ▸ hj)
      rw [ht]
      simp
    · rw [if_neg hai]
      have hit : i ∈ t := by
        rcases List.mem_cons.mp hmem with h | h
        · exact absurd h.symm hai
        · exact h
      rw [List.length_nil, Nat.zero_add]
      exact ih hnd.2 hit

lemma filter_of_map {α β : Type} (l : List α) (f : α → β) (q : β → Bool) :
    (l.map f).filter q = (l.filter (fun a => q (f a))).map f := by
  induction l with
  | nil => rfl
  | cons a t ih =>
    cases hqa : q (f a) with
    | true => simp [List.filter_cons, hqa, ih]
    | false => simp [List.filter_cons, hqa, ih]

lemma filter_swap {α : Type} (l : List α) (c q : α → Bool) :
    (l.filter c).filter q = (l.filter q).filter c := by
  induction l with
  | nil => rfl
  | cons a t ih =>
    cases hca : c a <;> cases hqa : q a <;>
      simp [List.filter_cons, hca, hqa, ih]

lemma filter_name_unique (pats : List (String × (String → Bool)))
    (p : String × (String → Bool))
    (hnames : (pats.map (fun x => getVulnerabilityName x.1)).Nodup)
    (hp : p ∈ pats) :
    pats.filter (fun x => getVulnerabilityName x.1 == getVulnerabilityName p.1)
      = [p] := by
  induction pats with
  | nil => cases hp
  | cons a t ih =>
    rw [List.map_cons, List.nodup_cons] at hnames
    rcases List.mem_cons.mp hp with rfl | hpt
    · rw [List.filter_cons_of_pos (by simp)]
      have ht : t.filter
          (fun x => getVulnerabilityName x.1 == getVulnerabilityName p.1) = [] := by
        apply List.filter_eq_nil_iff.mpr
        intro x hx
        simp only [beq_iff_eq]
        intro hname
        exact hnames.1 (hname ▸ List.mem_map_of_mem
          (fun y => getVulnerabilityName y.1) hx)
      rw [ht]
    · rw [List.filter_cons_of_neg ?hneg, ih hnames.2 hpt]
      case hneg =>
        simp only [beq_iff_eq]
        intro hname
        exact hnames.1 (hname ▸ List.mem_map_of_mem
          (fun y => getVulnerabilityName y.1) hpt)

lemma range_filter_interval (n lo hi : Nat) :
    (List.range n).filter (fun j => lo ≤ j && j < hi)
      = List.range' lo (min n hi - lo) := by
  induction n with
  | zero => simp
  | succ n ih =>
    rw [List.range_succ, List.filter_append, ih]
    by_cases h1 : n < hi
    · by_cases h2 : lo ≤ n
      · have hflt : List.filter (fun j => decide (lo ≤ j) && decide (j < hi)) [n]
            = [n] := by
          simp [h1, h2]
        have hmin : min (n + 1) hi - lo = (min n hi - lo) + 1 := by omega
        rw [hflt, hmin, List.range'_concat]
        have hn : lo + 1 * (min n hi - lo) = n := by omega
        rw [hn]
      · have hz1 : min (n + 1) hi - lo = 0 := by omega
        have hz2 : min n hi - lo = 0 := by omega
        rw [hz1, hz2] at *
        rw [List.filter_cons_of_neg (by simp [h2]), hz1]
        simp
    · have hsame : min (n + 1) hi - lo = min n hi - lo := by omega
      rw [List.filter_cons_of_neg (by simp [h1]), hsame]
      simp

lemma range'_map_getD {α : Type} (l : List α) (d : α) :
    ∀ (len lo : Nat), lo + len ≤ l.length →
      (List.range' lo len).map (fun j => l.getD j d) = (l.drop lo).take len := by
  intro len
  induction len with
  | zero => intro lo _; simp
  | succ k ih =>
    intro lo h
    have hlo : lo < l.length := by omega
    rw [List.range'_succ, List.map_cons, ih (lo + 1) (by omega)]
    rw [List.drop_eq_getElem_cons hlo, List.take_succ_cons]
    have hgd : l.getD lo d = l[lo] := List.getD_eq_getElem l d hlo
    rw [hgd]

lemma mkFinding_codeSnippet (key : String) (lines : List String) (i : Nat) :
    (mkFinding key lines i).codeSnippet
      = joinWithNewlines
          (((List.range lines.length).filter
              (fun j => i - 2 ≤ j && j ≤ i + 2)).map (fun j => lines.getD j "")) := by
  show joinWithNewlines
      ((lines.drop (i - 2)).take (min lines.length (i + 3) - (i - 2))) = _
  congr 1
  have hpred : (fun j => decide (i - 2 ≤ j) && decide (j ≤ i + 2))
      = (fun j => decide (i - 2 ≤ j) && decide (j < i + 3)) := by
    funext j
    congr 1
    simp [Nat.lt_succ_iff]
  rw [hpred, range_filter_interval]
  by_cases hc : i - 2 ≤ lines.length
  · rw [range'_map_getD lines "" (min lines.length (i + 3) - (i - 2)) (i - 2) (by omega)]
  · have h1 : min lines.length (i + 3) - (i - 2) = 0 := by omega
    rw [h1]
    have h2 : lines.drop (i - 2) = [] := List.drop_eq_nil_of_le (by omega)
    rw [h2]
    simp

lemma auditFindings_eq_flatMap (pats : List (String × (String → Bool)))
    (source : String) :
    auditFindings pats source
      = (List.range (jsSplitLines source).length).flatMap (fun i =>
          (pats.filter (fun p => p.2 ((jsSplitLines source).getD i ""))).map
            (fun p => mkFinding p.1 (jsSplitLines source) i)) := by
  have hstep : ∀ (acc : List Vulnerability) (i : Nat),
      pats.foldl (fun acc2 p =>
        if p.2 ((jsSplitLines source).getD i "") then
          acc2 ++ [mkFinding p.1 (jsSplitLines source) i]
        else acc2) acc
        = acc ++ (pats.filter (fun p => p.2 ((jsSplitLines source).getD i ""))).map
            (fun p => mkFinding p.1 (jsSplitLines source) i) := by
    intro acc i
    exact foldl_if_append pats _ _ acc
  suffices h : ∀ (l : List Nat) (init : List Vulnerability),
      l.foldl (fun acc i =>
        pats.foldl (fun acc2 p =>
          if p.2 ((jsSplitLines source).getD i "") then
            acc2 ++ [mkFinding p.1 (jsSplitLines source) i]
          else acc2) acc) init
        = init ++ l.flatMap (fun i =>
            (pats.filter (fun p => p.2 ((jsSplitLines source).getD i ""))).map
              (fun p => mkFinding p.1 (jsSplitLines source) i)) by
    have h0 := h (List.range (jsSplitLines source).length) []
    simpa [auditFindings] using h0
  intro l
  induction l with
  | nil => intro init; simp
  | cons i t ih =>
    intro init
    rw [List.foldl_cons, hstep, ih, List.flatMap_cons, List.append_assoc]

/-- C6.  Scanner characterization: the built-in scan equals the flat-map
over 0-based line indices of one finding per matching registry rule, in scan
order with no deduplication; every finding built for line `i` carries
`lineStart = lineEnd = i + 1` and the snippet of lines `max(0, i-2)` through
`min(lastIndex, i+2)` inclusive joined with newlines; a line matched by `k`
rules contributes exactly `k` findings, and (with pairwise-distinct display
names, as in the shipped registry) a rule matching `m` lines contributes
exactly `m` findings. -/
theorem auditFindings_characterization
    (pats : List (String × (String → Bool))) (source : String)
    (hnames : (pats.map (fun p => getVulnerabilityName p.1)).Nodup) :
    (auditFindings pats source
      = (List.range (jsSplitLines source).length).flatMap (fun i =>
          (pats.filter (fun p => p.2 ((jsSplitLines source).getD i ""))).map
            (fun p => mkFinding p.1 (jsSplitLines source) i)))
    ∧ (∀ (key : String) (lines : List String) (i : Nat),
        (mkFinding key lines i).lineStart = (i : Int) + 1
        ∧ (mkFinding key lines i).lineEnd = (i : Int) + 1
        ∧ (mkFinding key lines i).codeSnippet
            = joinWithNewlines
                (((List.range lines.length).filter
                    (fun j => i - 2 ≤ j && j ≤ i + 2)).map (fun j => lines.getD j "")))
    ∧ (∀ i, i < (jsSplitLines source).length →
        ((auditFindings pats source).filter
            (fun f => f.lineStart == (i : Int) + 1)).length
          = (pats.filter (fun p => p.2 ((jsSplitLines source).getD i ""))).length)
    ∧ (∀ p ∈ pats,
        ((auditFindings pats source).filter
            (fun f => f.name == getVulnerabilityName p.1)).length
          = ((List.range (jsSplitLines source).length).filter
              (fun i => p.2 ((jsSplitLines source).getD i ""))).length) := by
  refine ⟨auditFindings_eq_flatMap pats source,
    fun key lines i => ⟨rfl, rfl, mkFinding_codeSnippet key lines i⟩, ?_, ?_⟩
  · intro i hi
    rw [auditFindings_eq_flatMap, filter_flatMap_comm]
    have hinner : ∀ j,
        (((pats.filter (fun p => p.2 ((jsSplitLines source).getD j ""))).map
            (fun p => mkFinding p.1 (jsSplitLines source) j)).filter
          (fun f => f.lineStart == (i : Int) + 1))
        = if j = i then
            (pats.filter (fun p => p.2 ((jsSplitLines source).getD i ""))).map
              (fun p => mkFinding p.1 (jsSplitLines source) i)
          else [] := by
      intro j
      by_cases hji : j = i
      · subst hji
        rw [if_pos rfl]
        apply List.filter_eq_self.mpr
        intro f hf
        obtain ⟨p, hp, rfl⟩ := List.mem_map.mp hf
        simp [mkFinding]
      · rw [if_neg hji]
        apply List.filter_eq_nil_iff.mpr
        intro f hf
        obtain ⟨p, hp, rfl⟩ := List.mem_map.mp hf
        simp only [mkFinding, beq_iff_eq]
        omega
    simp only [hinner]
    rw [flatMap_ite_const_length _ i _ (List.nodup_range _) (List.mem_range.mpr hi)]
    rw [List.length_map]
  · intro p hp
    rw [auditFindings_eq_flatMap, filter_flatMap_comm]
    have hinner : ∀ j,
        (((pats.filter (fun x => x.2 ((jsSplitLines source).getD j ""))).map
            (fun x => mkFinding x.1 (jsSplitLines source) j)).filter
          (fun f => f.name == getVulnerabilityName p.1))
        = if p.2 ((jsSplitLines source).getD j "") then
            [mkFinding p.1 (jsSplitLines source) j]
          else [] := by
      intro j
      rw [filter_of_map]
      have hpred : (fun x : String × (String → Bool) =>
          (mkFinding x.1 (jsSplitLines source) j).name == getVulnerabilityName p.1)
          = (fun x : String × (String → Bool) =>
              getVulnerabilityName x.1 == getVulnerabilityName p.1) := rfl
      rw [hpred, filter_swap, filter_name_unique pats p hnames hp]
      by_cases hc : p.2 ((jsSplitLines source).getD j "") = true
      · rw [List.filter_singleton, hc]
        simp
      · rw [Bool.not_eq_true] at hc
        rw [List.filter_singleton, hc]
        simp
    simp only [hinner]
    rw [flatMap_ite_singleton_length]

set_option maxRecDepth 100000 in
/-- C6 witness: the shipped registry has pairwise-distinct display names, and
on the two-line source `"a\nselfdestruct(owner);"` the per-line count at line
index 1 and the per-rule count for the self-destruct rule are both 1. -/
theorem auditFindings_characterization_witness :
    ((vulnerabilityPatterns.map (fun p => getVulnerabilityName p.1)).Nodup)
    ∧ (1 < (jsSplitLines "a\nselfdestruct(owner);").length)
    ∧ (((auditFindings vulnerabilityPatterns "a\nselfdestruct(owner);").filter
        (fun f => f.lineStart == ((1 : Nat) : Int) + 1)).length
      = (vulnerabilityPatterns.filter
          (fun p => p.2 ((jsSplitLines "a\nselfdestruct(owner);").getD 1 ""))).length)
    ∧ (((auditFindings vulnerabilityPatterns "a\nselfdestruct(owner);").filter
        (fun f => f.name == getVulnerabilityName "unsecuredSelfDestruct")).length
      = ((List.range (jsSplitLines "a\nselfdestruct(owner);").length).filter
          (fun i => unsecuredSelfDestructTest
            ((jsSplitLines "a\nselfdestruct(owner);").getD i ""))).length) := by
  have hmem : ("unsecuredSelfDestruct", unsecuredSelfDestructTest)
      ∈ vulnerabilityPatterns := by
    unfold vulnerabilityPatterns
    exact List.mem_cons_of_mem _ (List.mem_cons_of_mem _ (List.mem_cons_of_mem _
      (List.mem_cons_of_mem _ (List.mem_cons_self _ _))))
  have h := auditFindings_characterization vulnerabilityPatterns
    "a\nselfdestruct(owner);" (by decide)
  exact ⟨by decide, by decide, h.2.2.1 1 (by decide),
    h.2.2.2 ("unsecuredSelfDestruct", unsecuredSelfDestructTest) hmem⟩

set_option maxRecDepth 100000 in
/-- C8 (code bug).  On an initialized auditor the built-in patch switch is
unreachable: `ModelIntegration.generatePatch` swallows every failure and
returns either the subprocess stdout or the comment
`// Ошибка при генерации патча: ...`, so for an unknown-name vulnerability
`generatePatch` returns that error comment — which does not contain the
stored recommendation — instead of the built-in advisory text that the
spec's mandatory fallback would produce.  The two results differ on the
same inputs. -/
theorem generatePatch_modelFailure_no_recommendation :
    generatePatch (Except.error "Error: spawn python ENOENT") unknownKeyDemoVuln
        "selfdestruct(payable(owner));"
      = "// Ошибка при генерации патча: Error: spawn python ENOENT"
    ∧ containsSubstr "// Ошибка при генерации патча: Error: spawn python ENOENT"
        unknownKeyDemoVuln.recommendation = false
    ∧ generatePatchBuiltin unknownKeyDemoVuln "selfdestruct(payable(owner));"
      = some ("// DEP Security Patch: Please review this vulnerability manually\n// "
          ++ unknownKeyDemoVuln.recommendation)
    ∧ containsSubstr
        ("// DEP Security Patch: Please review this vulnerability manually\n// "
          ++ unknownKeyDemoVuln.recommendation)
        unknownKeyDemoVuln.recommendation = true
    ∧ some (generatePatch (Except.error "Error: spawn python ENOENT")
          unknownKeyDemoVuln "selfdestruct(payable(owner));")
      ≠ generatePatchBuiltin unknownKeyDemoVuln "selfdestruct(payable(owner));" := by
  decide
